import Mathlib

/-!
Shallow embedding of the Discord channel adapter (`src/channels/discord.ts`)
and of the deferred-task producer (`write_ipc_task` in the sync script).

Strings are modelled as `List Char`; JavaScript string truthiness (empty
string is falsy) is modelled explicitly.  Platform transport effects are
modelled as traces of `TransportCall` values, with an oracle choosing the
outcome of each fallible transport operation.
-/

namespace Nanoclaw

/-- MAX_MESSAGE_LENGTH constant from discord.ts. -/
def MAX_MESSAGE_LENGTH : Nat := 2000

/-- The adapter namespace tag, the literal "dc:" used to mint chat jids. -/
def dcTag : List Char := "dc:".toList

/-- Model of JavaScript s.startsWith(p) over character lists. -/
def strStartsWith : List Char → List Char → Bool
  | _, [] => true
  | [], _ :: _ => false
  | c :: cs, p :: ps => c == p && strStartsWith cs ps

/-- Model of ownsJid: jid.startsWith("dc:"). -/
def ownsJid (jid : List Char) : Bool := strStartsWith jid dcTag

/-- Model of jid.replace with the anchored pattern for "dc:": removes one
leading occurrence of the tag when present, else leaves the string alone. -/
def stripDc (jid : List Char) : List Char :=
  if strStartsWith jid dcTag then jid.drop dcTag.length else jid

/-- Model of the JavaScript a || b fallback over possibly-absent strings:
absent values and the empty string are falsy. -/
def jsOrStr (a : Option (List Char)) (b : List Char) : List Char :=
  match a with
  | none => b
  | some s => if s.isEmpty then b else s

/-- Sender display-name resolution in the MessageCreate handler:
message.member?.displayName || message.author.globalName || message.author.username. -/
def senderNameOf (memberDisplayName authorGlobalName : Option (List Char))
    (authorUsername : List Char) : List Char :=
  jsOrStr memberDisplayName (jsOrStr authorGlobalName authorUsername)

/-- JavaScript truthiness of a possibly-absent string field. -/
def truthyOpt (o : Option (List Char)) : Bool :=
  match o with
  | none => false
  | some s => !s.isEmpty

/-- The shape of a discord.js MessageCreate event, restricted to the fields
the handler reads. -/
structure MessageEvent where
  authorBot : Bool
  authorId : List Char
  authorGlobalName : Option (List Char)
  authorUsername : List Char
  memberDisplayName : Option (List Char)
  guildId : Option (List Char)
  channelId : Option (List Char)
  messageId : List Char
  content : List Char
  createdAt : List Char
  channelIsTextChannel : Bool
  channelName : List Char

/-- The uniform inbound message record handed to opts.onMessage. -/
structure StoredMessage where
  id : List Char
  chat_jid : List Char
  sender : List Char
  sender_name : List Char
  content : List Char
  timestamp : List Char
  is_from_me : Bool
  is_bot_message : Bool

/-- Observable calls the MessageCreate handler makes into the router. -/
inductive Effect
  | chatMetadata (chatJid timestamp channelName platform : List Char) (isDirect : Bool)
  | inboundMessage (chatJid : List Char) (message : StoredMessage)

/-- Model of the Events.MessageCreate handler: the list of router callbacks
it performs, in order.  registered models presence of the chat jid in
opts.registeredGroups(). -/
def handleMessageCreate (registered : List Char → Bool) (e : MessageEvent) : List Effect :=
  if e.authorBot then []
  else if !truthyOpt e.guildId || !truthyOpt e.channelId then []
  else
    let chatJid := dcTag ++ e.channelId.getD []
    let timestamp := e.createdAt
    let senderName := senderNameOf e.memberDisplayName e.authorGlobalName e.authorUsername
    let sender := e.authorId
    let content := e.content
    if content.isEmpty then []
    else
      let channelName := if e.channelIsTextChannel then '#' :: e.channelName else chatJid
      let meta := Effect.chatMetadata chatJid timestamp channelName "discord".toList false
      if registered chatJid then
        [meta, Effect.inboundMessage chatJid
          ⟨e.messageId, chatJid, sender, senderName, content, timestamp, false, false⟩]
      else
        [meta]

/-- Number of onChatMetadata calls in a handler trace. -/
def metaCount (effs : List Effect) : Nat :=
  (effs.filter fun eff =>
    match eff with
    | Effect.chatMetadata _ _ _ _ _ => true
    | _ => false).length

/-- Number of onMessage calls in a handler trace. -/
def msgCount (effs : List Effect) : Nat :=
  (effs.filter fun eff =>
    match eff with
    | Effect.inboundMessage _ _ => true
    | _ => false).length

/-- True when some onChatMetadata call in the trace carries isDirect = true. -/
def hasDirectMeta (effs : List Effect) : Bool :=
  effs.any fun eff =>
    match eff with
    | Effect.chatMetadata _ _ _ _ isDirect => isDirect
    | _ => false

/-- The prefixed outbound text formed by sendMessage before any splitting. -/
def mkPrefixed (assistantName text : List Char) : List Char :=
  "**".toList ++ assistantName ++ ":** ".toList ++ text

/-- The while loop of sendMessage: repeatedly slice off the first
MAX_MESSAGE_LENGTH characters until the remainder is empty. -/
def chunkSplit (s : List Char) : List (List Char) :=
  if h : s.isEmpty then []
  else s.take MAX_MESSAGE_LENGTH :: chunkSplit (s.drop MAX_MESSAGE_LENGTH)
termination_by s.length
decreasing_by
  simp only [List.length_drop]
  have hne : s ≠ [] := by simpa [List.isEmpty_iff] using h
  have hpos : 0 < s.length := List.length_pos.mpr hne
  simp [MAX_MESSAGE_LENGTH]
  omega

/-- The list of platform messages sendMessage emits for a resolved text
channel: the prefixed text as one message when it fits, else its chunks. -/
def planMessages (assistantName text : List Char) : List (List Char) :=
  let prefixed := mkPrefixed assistantName text
  if prefixed.length ≤ MAX_MESSAGE_LENGTH then [prefixed] else chunkSplit prefixed

/-- Outcome of this.client.channels.fetch as chosen by the oracle. -/
inductive FetchResult
  | threw
  | missing
  | nonText
  | textChannel
deriving DecidableEq

/-- Oracle fixing the outcome of each transport operation: the channel
fetch, and whether the k-th channel.send succeeds. -/
structure SendOracle where
  fetch : FetchResult
  sendOk : Nat → Bool

/-- Observable platform transport calls. -/
inductive TransportCall
  | fetchChannel (channelId : List Char)
  | sendText (message : List Char)
  | sendTyping (channelId : List Char)
deriving DecidableEq

/-- The sequential chunk-sending loop: each send is attempted only after the
previous succeeded; a failing send stops the loop with an error flag. -/
def sendLoop (sendOk : Nat → Bool) : Nat → List (List Char) → List TransportCall × Bool
  | _, [] => ([], true)
  | k, m :: rest =>
      if sendOk k then
        let r := sendLoop sendOk (k + 1) rest
        (TransportCall.sendText m :: r.1, r.2)
      else
        ([TransportCall.sendText m], false)

/-- The try block of sendMessage: fetch the channel, bail out on an
unusable channel, otherwise send the planned messages.  Returns the
transport trace and whether the block raised. -/
def sendMessageTry (o : SendOracle) (assistantName channelId text : List Char) :
    List TransportCall × Except (List Char) Unit :=
  match o.fetch with
  | FetchResult.threw => ([TransportCall.fetchChannel channelId], Except.error "fetch threw".toList)
  | FetchResult.missing => ([TransportCall.fetchChannel channelId], Except.ok ())
  | FetchResult.nonText => ([TransportCall.fetchChannel channelId], Except.ok ())
  | FetchResult.textChannel =>
      let r := sendLoop o.sendOk 0 (planMessages assistantName text)
      (TransportCall.fetchChannel channelId :: r.1,
        if r.2 then Except.ok () else Except.error "send threw".toList)

/-- Model of sendMessage: early return when not connected, then the try
block with its catch, which logs and swallows any error. -/
def sendMessage (connected : Bool) (o : SendOracle) (assistantName jid text : List Char) :
    List TransportCall × Except (List Char) Unit :=
  if !connected then ([], Except.ok ())
  else
    let r := sendMessageTry o assistantName (stripDc jid) text
    match r.2 with
    | Except.ok _ => (r.1, Except.ok ())
    | Except.error _ => (r.1, Except.ok ())

/-- Model of setTyping: no-op unless connected and isTyping; otherwise
fetch the channel and send a typing indicator when it is a text channel,
swallowing any error. -/
def setTyping (connected : Bool) (o : SendOracle) (jid : List Char) (isTyping : Bool) :
    List TransportCall :=
  if !connected || !isTyping then []
  else
    let channelId := stripDc jid
    match o.fetch with
    | FetchResult.threw => [TransportCall.fetchChannel channelId]
    | FetchResult.missing => [TransportCall.fetchChannel channelId]
    | FetchResult.nonText => [TransportCall.fetchChannel channelId]
    | FetchResult.textChannel =>
        [TransportCall.fetchChannel channelId, TransportCall.sendTyping channelId]

/-- The texts actually handed to channel.send, in order. -/
def sentTexts (calls : List TransportCall) : List (List Char) :=
  calls.filterMap fun c =>
    match c with
    | TransportCall.sendText m => some m
    | _ => none

/-- Task filename minted by write_ipc_task: "sync_" ++ timestamp digits ++ ".json". -/
def taskFileName (tsDigits : List Char) : List Char :=
  "sync_".toList ++ tsDigits ++ ".json".toList

/-- Full task file path: "$IPC_TASKS_DIR/sync_<ts>.json". -/
def taskFilePath (ipcTasksDir tsDigits : List Char) : List Char :=
  ipcTasksDir ++ "/".toList ++ taskFileName tsDigits

/-- The ordered candidate list of the sender-name fallback chain, written
the way the spec words it: member nickname, then global display name, then
account username. -/
def candidateNames (memberDisplayName authorGlobalName : Option (List Char))
    (authorUsername : List Char) : List (List Char) :=
  memberDisplayName.toList ++ authorGlobalName.toList ++ [authorUsername]

/-- First non-empty candidate, with a fallback when all are empty. -/
def firstNonEmptyName (candidates : List (List Char)) (fallback : List Char) : List Char :=
  match candidates.filter (fun s => !s.isEmpty) with
  | [] => fallback
  | x :: _ => x

/-- A concrete inbound event used to instantiate the handler theorems. -/
def sampleEvent : MessageEvent :=
  ⟨false, "42".toList, some "Al".toList, "alice123".toList, some "".toList,
   some "g1".toList, some "123".toList, "m1".toList, "hi".toList,
   "2026-01-01T00:00:00.000Z".toList, true, "general".toList⟩

/-- The same event authored by a bot-flagged account. -/
def sampleBotEvent : MessageEvent :=
  { sampleEvent with authorBot := true }

/-! Helper lemmas about the chunking loop. -/

theorem chunkSplit_nil : chunkSplit [] = [] := by
  rw [chunkSplit]
  simp

theorem chunkSplit_cons (s : List Char) (h : s.isEmpty = false) :
    chunkSplit s
      = s.take MAX_MESSAGE_LENGTH :: chunkSplit (s.drop MAX_MESSAGE_LENGTH) := by
  rw [chunkSplit]
  simp [h]

theorem chunkSplit_flatten (s : List Char) : (chunkSplit s).flatten = s := by
  induction s using chunkSplit.induct with
  | case1 s h => simp [chunkSplit, h, List.isEmpty_iff.mp h]
  | case2 s h ih =>
      rw [chunkSplit]
      simp [h, List.flatten_cons, ih]

theorem chunkSplit_mem_length (s : List Char) :
    ∀ m ∈ chunkSplit s, m.length ≤ MAX_MESSAGE_LENGTH := by
  induction s using chunkSplit.induct with
  | case1 s h => simp [chunkSplit, h]
  | case2 s h ih =>
      rw [chunkSplit]
      simp only [h]
      intro m hm
      rcases List.mem_cons.mp hm with rfl | hm
      · simpa using List.length_take_le MAX_MESSAGE_LENGTH s
      · exact ih m hm

theorem chunkSplit_length (s : List Char) :
    (chunkSplit s).length
      = (s.length + (MAX_MESSAGE_LENGTH - 1)) / MAX_MESSAGE_LENGTH := by
  induction s using chunkSplit.induct with
  | case1 s h =>
      have : s = [] := List.isEmpty_iff.mp h
      subst this
      simp [chunkSplit_nil, MAX_MESSAGE_LENGTH]
  | case2 s h ih =>
      rw [chunkSplit]
      have hne : s ≠ [] := by simpa [List.isEmpty_iff] using h
      have hpos : 0 < s.length := List.length_pos.mpr hne
      simp only [h, Bool.false_eq_true, ↓reduceDIte, List.length_cons, ih, List.length_drop]
      simp only [MAX_MESSAGE_LENGTH] at *
      omega

theorem chunkSplit_getElem (s : List Char) :
    ∀ i, i < (chunkSplit s).length →
      (chunkSplit s)[i]?
        = some ((s.drop (i * MAX_MESSAGE_LENGTH)).take MAX_MESSAGE_LENGTH) := by
  induction s using chunkSplit.induct with
  | case1 s h =>
      intro i hi
      have : s = [] := List.isEmpty_iff.mp h
      subst this
      simp [chunkSplit_nil] at hi
  | case2 s h ih =>
      intro i hi
      have h0 : s.isEmpty = false := by simp [h]
      rw [chunkSplit_cons s h0] at hi ⊢
      match i with
      | 0 => simp
      | Nat.succ j =>
          have hj : j < (chunkSplit (s.drop MAX_MESSAGE_LENGTH)).length := by
            simpa using hi
          have harith : MAX_MESSAGE_LENGTH + j * MAX_MESSAGE_LENGTH
              = (j + 1) * MAX_MESSAGE_LENGTH := by ring
          simpa [ih j hj, List.drop_drop, harith] using rfl

theorem chunkSplit_short (s : List Char) (hne : s ≠ [])
    (hlen : s.length ≤ MAX_MESSAGE_LENGTH) : chunkSplit s = [s] := by
  rw [chunkSplit]
  have h1 : s.isEmpty = false := by simpa [List.isEmpty_iff] using hne
  simp [h1, List.take_of_length_le hlen, List.drop_eq_nil_of_le hlen, chunkSplit_nil]

theorem mkPrefixed_length (n t : List Char) :
    (mkPrefixed n t).length = n.length + t.length + 6 := by
  have h2 : ("**".toList).length = 2 := rfl
  have h4 : (":** ".toList).length = 4 := rfl
  simp only [mkPrefixed, List.length_append, h2, h4]
  omega

theorem mkPrefixed_ne_nil (n t : List Char) : mkPrefixed n t ≠ [] := by
  intro h
  have := congrArg List.length h
  rw [mkPrefixed_length] at this
  simp at this

theorem planMessages_eq_chunkSplit (n t : List Char) :
    planMessages n t = chunkSplit (mkPrefixed n t) := by
  unfold planMessages
  by_cases h : (mkPrefixed n t).length ≤ MAX_MESSAGE_LENGTH
  · simp [h, chunkSplit_short _ (mkPrefixed_ne_nil n t) h]
  · simp [h]

theorem sendLoop_all_ok (ms : List (List Char)) (k : Nat) :
    sendLoop (fun _ => true) k ms = (ms.map TransportCall.sendText, true) := by
  induction ms generalizing k with
  | nil => rfl
  | cons m rest ih => simp [sendLoop, ih]

theorem sentTexts_fetch_sends (c : List Char) (ms : List (List Char)) :
    sentTexts (TransportCall.fetchChannel c :: ms.map TransportCall.sendText) = ms := by
  induction ms with
  | nil => rfl
  | cons m rest ih =>
      simpa [sentTexts, List.filterMap_cons] using
        congrArg (List.cons m) (by simpa [sentTexts, List.filterMap_cons] using ih)

theorem sentTexts_sendMessage_ok (assistantName jid text : List Char) :
    sentTexts
        (sendMessage true ⟨FetchResult.textChannel, fun _ => true⟩ assistantName jid text).1
      = chunkSplit (mkPrefixed assistantName text) := by
  simp [sendMessage, sendMessageTry, sendLoop_all_ok, planMessages_eq_chunkSplit,
    sentTexts_fetch_sends]

theorem strStartsWith_iff (s p : List Char) :
    strStartsWith s p = true ↔ ∃ r, s = p ++ r := by
  induction p generalizing s with
  | nil =>
      constructor
      · intro _
        exact ⟨s, rfl⟩
      · intro _
        cases s <;> rfl
  | cons c cs ih =>
      cases s with
      | nil => simp [strStartsWith]
      | cons a as =>
          simp only [strStartsWith, Bool.and_eq_true, beq_iff_eq, ih, List.cons_append,
            List.cons.injEq]
          constructor
          · rintro ⟨rfl, r, rfl⟩
            exact ⟨r, rfl, rfl⟩
          · rintro ⟨r, rfl, rfl⟩
            exact ⟨rfl, r, rfl⟩

theorem strStartsWith_append (p r : List Char) : strStartsWith (p ++ r) p = true :=
  (strStartsWith_iff _ _).mpr ⟨r, rfl⟩

/-- C1: sendMessage on a connected adapter with a resolvable text channel first
forms the prefixed text; when its length is at most MAX_MESSAGE_LENGTH it is
sent as exactly one message, and in general the sent messages are
ceil(prefixedLength / M) consecutive slices in order, each of length at most
M, whose concatenation is exactly the prefixed text (prefix applied once). -/
theorem sendMessage_chunking (assistantName jid text : List Char) :
    ((mkPrefixed assistantName text).length ≤ MAX_MESSAGE_LENGTH →
      sentTexts (sendMessage true ⟨FetchResult.textChannel, fun _ => true⟩
          assistantName jid text).1 = [mkPrefixed assistantName text]) ∧
    (sentTexts (sendMessage true ⟨FetchResult.textChannel, fun _ => true⟩
          assistantName jid text).1).length
      = ((mkPrefixed assistantName text).length + (MAX_MESSAGE_LENGTH - 1))
          / MAX_MESSAGE_LENGTH ∧
    (∀ m ∈ sentTexts (sendMessage true ⟨FetchResult.textChannel, fun _ => true⟩
          assistantName jid text).1, m.length ≤ MAX_MESSAGE_LENGTH) ∧
    (sentTexts (sendMessage true ⟨FetchResult.textChannel, fun _ => true⟩
          assistantName jid text).1).flatten = mkPrefixed assistantName text ∧
    ∀ i, i < (sentTexts (sendMessage true ⟨FetchResult.textChannel, fun _ => true⟩
          assistantName jid text).1).length →
      (sentTexts (sendMessage true ⟨FetchResult.textChannel, fun _ => true⟩
          assistantName jid text).1)[i]?
        = some (((mkPrefixed assistantName text).drop
            (i * MAX_MESSAGE_LENGTH)).take MAX_MESSAGE_LENGTH) := by
  rw [sentTexts_sendMessage_ok]
  refine ⟨?_, ?_, ?_, ?_, ?_⟩
  · intro hle
    exact chunkSplit_short _ (mkPrefixed_ne_nil _ _) hle
  · exact chunkSplit_length _
  · exact chunkSplit_mem_length _
  · exact chunkSplit_flatten _
  · exact chunkSplit_getElem _

/-- Witness for C1 at a concrete short message. -/
theorem sendMessage_chunking_w :
    sentTexts (sendMessage true ⟨FetchResult.textChannel, fun _ => true⟩
        "Claude".toList "dc:1".toList "hi".toList).1
      = [mkPrefixed "Claude".toList "hi".toList] :=
  (sendMessage_chunking "Claude".toList "dc:1".toList "hi".toList).1 (by decide)

/-- C4: sendMessage never propagates an error: its result is always ok, and
on a disconnected adapter it performs zero transport calls. -/
theorem sendMessage_never_throws (connected : Bool) (o : SendOracle)
    (assistantName jid text : List Char) :
    (sendMessage connected o assistantName jid text).2 = Except.ok () ∧
    (connected = false → (sendMessage connected o assistantName jid text).1 = []) := by
  cases connected with
  | false => exact ⟨by simp [sendMessage], fun _ => by simp [sendMessage]⟩
  | true =>
      refine ⟨?_, fun h => nomatch h⟩
      unfold sendMessage
      simp only [Bool.not_true, Bool.false_eq_true, if_false]
      split <;> rfl

/-- Witness for C4 on a disconnected adapter with a hostile oracle. -/
theorem sendMessage_never_throws_w :
    (sendMessage false ⟨FetchResult.threw, fun _ => false⟩ "Claude".toList
        "dc:1".toList "hi".toList).2 = Except.ok () ∧
    (sendMessage false ⟨FetchResult.threw, fun _ => false⟩ "Claude".toList
        "dc:1".toList "hi".toList).1 = [] :=
  ⟨(sendMessage_never_throws false ⟨FetchResult.threw, fun _ => false⟩ "Claude".toList
      "dc:1".toList "hi".toList).1,
   (sendMessage_never_throws false ⟨FetchResult.threw, fun _ => false⟩ "Claude".toList
      "dc:1".toList "hi".toList).2 rfl⟩

/-- C5: ownsJid is true exactly for identifiers bearing the adapter
namespace tag "dc:", and false for the empty string, foreign tags, and
truncated or case-mangled variants. -/
theorem ownsJid_spec :
    (∀ jid, ownsJid jid = true ↔ ∃ rest, jid = dcTag ++ rest) ∧
    ownsJid [] = false ∧
    ownsJid ("tg:99".toList) = false ∧
    ownsJid ("dc".toList) = false ∧
    ownsJid ("Dc:1".toList) = false :=
  ⟨fun jid => strStartsWith_iff jid dcTag, by decide, by decide, by decide, by decide⟩

/-- Witness for C5 at a concrete owned identifier. -/
theorem ownsJid_spec_w : ownsJid ("dc:123".toList) = true :=
  (ownsJid_spec.1 ("dc:123".toList)).mpr ⟨"123".toList, by decide⟩

theorem chunkSplit_map_length_4512 (s : List Char) (h : s.length = 4512) :
    (chunkSplit s).map List.length = [2000, 2000, 512] := by
  have h1 : s.isEmpty = false := by
    cases s with
    | nil => simp at h
    | cons a as => rfl
  have hd1 : (s.drop MAX_MESSAGE_LENGTH).length = 2512 := by
    simp [List.length_drop, h, MAX_MESSAGE_LENGTH]
  have h2 : (s.drop MAX_MESSAGE_LENGTH).isEmpty = false := by
    cases hs : s.drop MAX_MESSAGE_LENGTH with
    | nil => rw [hs] at hd1; simp at hd1
    | cons a as => rfl
  have hd2 : ((s.drop MAX_MESSAGE_LENGTH).drop MAX_MESSAGE_LENGTH).length = 512 := by
    simp only [List.length_drop, MAX_MESSAGE_LENGTH]
    omega
  have h3 : (s.drop MAX_MESSAGE_LENGTH).drop MAX_MESSAGE_LENGTH ≠ [] := by
    intro hs
    rw [hs] at hd2
    simp at hd2
  have h4 : ((s.drop MAX_MESSAGE_LENGTH).drop MAX_MESSAGE_LENGTH).length
      ≤ MAX_MESSAGE_LENGTH := by
    rw [hd2]
    norm_num [MAX_MESSAGE_LENGTH]
  rw [chunkSplit_cons s h1, chunkSplit_cons _ h2, chunkSplit_short _ h3 h4]
  simp only [List.map_cons, List.map_nil, List.length_take, h, hd1, hd2]
  norm_num [MAX_MESSAGE_LENGTH]

/-- C7 counterexample: with a 12-character prefix (6-character assistant
name) and a 4500-character text, the chunk lengths are 2000, 2000, 512 —
not 2000, 2000, 500 as the claim states. -/
theorem sendMessage_example_cex :
    (sentTexts (sendMessage true ⟨FetchResult.textChannel, fun _ => true⟩
        "Claude".toList "dc:1".toList (List.replicate 4500 'a')).1).map List.length
      ≠ [2000, 2000, 500] := by
  rw [sentTexts_sendMessage_ok, chunkSplit_map_length_4512]
  · decide
  · rw [mkPrefixed_length, List.length_replicate]
    decide

/-- C7 amended: a 4500-character text with a 12-character prefix yields
exactly 3 chunks of lengths 2000, 2000, 512, the first beginning with the
assistant prefix. -/
theorem sendMessage_example_amended_thm :
    (sentTexts (sendMessage true ⟨FetchResult.textChannel, fun _ => true⟩
        "Claude".toList "dc:1".toList (List.replicate 4500 'a')).1).map List.length
      = [2000, 2000, 512] ∧
    strStartsWith
      ((sentTexts (sendMessage true ⟨FetchResult.textChannel, fun _ => true⟩
          "Claude".toList "dc:1".toList (List.replicate 4500 'a')).1).headD [])
      ("**".toList ++ "Claude".toList ++ ":** ".toList) = true := by
  have hlen : (mkPrefixed "Claude".toList (List.replicate 4500 'a')).length = 4512 := by
    rw [mkPrefixed_length, List.length_replicate]
    decide
  rw [sentTexts_sendMessage_ok]
  refine ⟨chunkSplit_map_length_4512 _ hlen, ?_⟩
  have h1 : (mkPrefixed "Claude".toList (List.replicate 4500 'a')).isEmpty = false := by
    cases hs : mkPrefixed "Claude".toList (List.replicate 4500 'a') with
    | nil => exact absurd (hs ▸ hlen) (by decide)
    | cons a as => rfl
  rw [chunkSplit_cons _ h1]
  simp only [List.headD_cons]
  have hview : mkPrefixed "Claude".toList (List.replicate 4500 'a')
      = ("**".toList ++ "Claude".toList ++ ":** ".toList) ++ List.replicate 4500 'a' := by
    simp only [mkPrefixed, List.append_assoc]
  rw [hview, List.take_append_eq_append_take]
  have hfix : ("**".toList ++ "Claude".toList ++ ":** ".toList).take MAX_MESSAGE_LENGTH
      = "**".toList ++ "Claude".toList ++ ":** ".toList := by decide
  rw [hfix]
  exact strStartsWith_append _ _

/-- C2: an inbound event passing the bot-author, guild-context and
non-empty-content filters produces exactly one onChatMetadata call, and one
onMessage call exactly when the derived chat jid is registered. -/
theorem messageCreate_registration_gate (registered : List Char → Bool) (e : MessageEvent)
    (hbot : e.authorBot = false)
    (hguild : truthyOpt e.guildId = true)
    (hchan : truthyOpt e.channelId = true)
    (hcontent : e.content.isEmpty = false) :
    metaCount (handleMessageCreate registered e) = 1 ∧
    msgCount (handleMessageCreate registered e)
      = (if registered (dcTag ++ e.channelId.getD []) then 1 else 0) := by
  unfold handleMessageCreate
  rw [hbot, hguild, hchan]
  simp only [Bool.not_true, Bool.or_self, Bool.false_eq_true, if_false, hcontent]
  by_cases hreg : registered (dcTag ++ e.channelId.getD []) <;>
    simp [hreg, metaCount, msgCount]

/-- Witness for C2: one concrete event, once registered and once not. -/
theorem messageCreate_registration_gate_w :
    metaCount (handleMessageCreate (fun _ => true) sampleEvent) = 1 ∧
    msgCount (handleMessageCreate (fun _ => true) sampleEvent) = 1 ∧
    metaCount (handleMessageCreate (fun _ => false) sampleEvent) = 1 ∧
    msgCount (handleMessageCreate (fun _ => false) sampleEvent) = 0 := by
  refine ⟨(messageCreate_registration_gate (fun _ => true) sampleEvent rfl rfl rfl rfl).1,
    ?_, (messageCreate_registration_gate (fun _ => false) sampleEvent rfl rfl rfl rfl).1, ?_⟩
  · have h := (messageCreate_registration_gate (fun _ => true) sampleEvent rfl rfl rfl rfl).2
    simpa using h
  · have h := (messageCreate_registration_gate (fun _ => false) sampleEvent rfl rfl rfl rfl).2
    simpa using h

/-- C3: an event whose author carries the bot flag produces no router
callbacks at all. -/
theorem messageCreate_skips_bots (registered : List Char → Bool) (e : MessageEvent)
    (h : e.authorBot = true) :
    handleMessageCreate registered e = [] := by
  unfold handleMessageCreate
  rw [h]
  simp

/-- Witness for C3 at a concrete bot-authored event. -/
theorem messageCreate_skips_bots_w :
    handleMessageCreate (fun _ => true) sampleBotEvent = [] :=
  messageCreate_skips_bots (fun _ => true) sampleBotEvent rfl

/-- C9: every onChatMetadata call the handler emits carries isDirect =
false; the adapter never reports a conversation as direct. -/
theorem messageCreate_never_direct (registered : List Char → Bool) (e : MessageEvent) :
    hasDirectMeta (handleMessageCreate registered e) = false := by
  unfold handleMessageCreate
  split
  · rfl
  · split
    · rfl
    · by_cases hc : e.content.isEmpty = true <;>
        by_cases hr : registered (dcTag ++ e.channelId.getD []) = true <;>
          simp [hc, hr, hasDirectMeta]

/-- C6: sender display-name resolution returns the first non-empty value in
the order member nickname, global display name, account username; for
nickname empty, globalName Al, username alice123 the result is Al. -/
theorem senderName_first_non_empty :
    (∀ memberDisplayName authorGlobalName authorUsername,
      senderNameOf memberDisplayName authorGlobalName authorUsername
        = firstNonEmptyName
            (candidateNames memberDisplayName authorGlobalName authorUsername)
            authorUsername) ∧
    senderNameOf (some "".toList) (some "Al".toList) "alice123".toList = "Al".toList := by
  have base : ∀ (g : Option (List Char)) (u : List Char),
      jsOrStr g u = firstNonEmptyName (g.toList ++ [u]) u := by
    intro g u
    cases g with
    | none =>
        by_cases hu : u.isEmpty <;> simp [jsOrStr, firstNonEmptyName, hu]
    | some t =>
        by_cases ht : t.isEmpty
        · by_cases hu : u.isEmpty <;>
            simp [jsOrStr, firstNonEmptyName, Option.toList, ht, hu]
        · simp [jsOrStr, firstNonEmptyName, Option.toList, ht]
  constructor
  · intro n g u
    cases n with
    | none => simpa [candidateNames, senderNameOf, jsOrStr, Option.toList] using base g u
    | some s =>
        by_cases hs : s.isEmpty
        · simpa [candidateNames, senderNameOf, jsOrStr, Option.toList, firstNonEmptyName,
            List.filter_cons, hs] using base g u
        · simp [candidateNames, senderNameOf, jsOrStr, Option.toList, hs, firstNonEmptyName]
  · decide

/-- C8: two task-file producer runs with different high-resolution
timestamps construct different file paths, so neither overwrites the
other. -/
theorem write_ipc_task_unique (ipcTasksDir ts1 ts2 : List Char) (h : ts1 ≠ ts2) :
    taskFilePath ipcTasksDir ts1 ≠ taskFilePath ipcTasksDir ts2 := by
  intro heq
  apply h
  unfold taskFilePath taskFileName at heq
  have h1 := (List.append_right_inj (ipcTasksDir ++ "/".toList)).mp heq
  have h2 := (List.append_left_inj (".json".toList)).mp h1
  exact (List.append_right_inj ("sync_".toList)).mp h2

/-- Witness for C8 at two concrete nanosecond timestamps. -/
theorem write_ipc_task_unique_w :
    taskFilePath "/data/ipc/main/tasks".toList "1760000000000000001".toList
      ≠ taskFilePath "/data/ipc/main/tasks".toList "1760000000000000002".toList :=
  write_ipc_task_unique _ _ _ (by decide)

theorem sendMessage_head (o : SendOracle) (assistantName jid text : List Char) :
    (sendMessage true o assistantName jid text).1.head?
      = some (TransportCall.fetchChannel (stripDc jid)) := by
  unfold sendMessage
  simp only [Bool.not_true, Bool.false_eq_true, if_false]
  cases hf : o.fetch
  case threw => simp [sendMessageTry, hf]
  case missing => simp [sendMessageTry, hf]
  case nonText => simp [sendMessageTry, hf]
  case textChannel =>
      simp only [sendMessageTry, hf]
      split <;> simp

theorem setTyping_head (o : SendOracle) (jid : List Char) :
    (setTyping true o jid true).head? = some (TransportCall.fetchChannel (stripDc jid)) := by
  unfold setTyping
  simp only [Bool.not_true, Bool.or_self, Bool.false_eq_true, if_false]
  cases hf : o.fetch <;> simp [hf]

/-- C10: the destination channel id is derived by removing at most one
leading dc: tag, with no ownership check: a tagged jid loses exactly one
tag, an untagged jid is used unchanged as the fetched channel id by both
sendMessage and setTyping. -/
theorem jid_used_unchanged :
    (∀ rest, stripDc (dcTag ++ rest) = rest) ∧
    (∀ jid, ownsJid jid = false → stripDc jid = jid) ∧
    (∀ o assistantName jid text, ownsJid jid = false →
      (sendMessage true o assistantName jid text).1.head?
        = some (TransportCall.fetchChannel jid)) ∧
    (∀ o jid, ownsJid jid = false →
      (setTyping true o jid true).head? = some (TransportCall.fetchChannel jid)) := by
  have hstrip : ∀ jid, ownsJid jid = false → stripDc jid = jid := by
    intro jid h
    unfold ownsJid at h
    unfold stripDc
    simp [h]
  refine ⟨?_, hstrip, ?_, ?_⟩
  · intro rest
    unfold stripDc
    rw [strStartsWith_append]
    simp [List.drop_left]
  · intro o assistantName jid text h
    rw [sendMessage_head, hstrip jid h]
  · intro o jid h
    rw [setTyping_head, hstrip jid h]

/-- Witness for C10 at a foreign-platform identifier and a double-tagged
identifier. -/
theorem jid_used_unchanged_w :
    stripDc ("tg:55".toList) = "tg:55".toList ∧
    (sendMessage true ⟨FetchResult.missing, fun _ => true⟩ "Claude".toList
        "tg:55".toList "hi".toList).1.head?
      = some (TransportCall.fetchChannel "tg:55".toList) ∧
    (setTyping true ⟨FetchResult.missing, fun _ => true⟩ "tg:55".toList true).head?
      = some (TransportCall.fetchChannel "tg:55".toList) ∧
    stripDc (dcTag ++ "dc:9".toList) = "dc:9".toList :=
  ⟨jid_used_unchanged.2.1 _ (by decide),
   jid_used_unchanged.2.2.1 _ _ _ _ (by decide),
   jid_used_unchanged.2.2.2 _ _ (by decide),
   jid_used_unchanged.1 _⟩

end Nanoclaw
